import Mathlib

/-!
# simple_shell: dispatch loop, tokenizer, path resolution and launcher

A shallow embedding of `builtin.c`.

* A C string is a `List Char` holding the bytes before its terminating NUL.
* Standard input is the list of bytes still unread. A child shares the
  descriptor with the shell, so what the shell finds after a child has run is
  the answer of an oracle.
* The operating system is a record of oracles (`World`): the answer of `isatty`,
  the value of `getenv("PATH")`, the answers of `access(_, X_OK)`, and whether
  `execve`, `fork` and `waitpid` succeed.
* The forked child is a pure function from the command to the trace of its
  system calls (`Event`), or `none` where the C code has undefined behaviour.
-/

set_option autoImplicit false
set_option maxRecDepth 100000

namespace Shell

/-- The size of the command buffer, `#define MAX_COMMAND_LENGTH 100`. -/
def MAX_COMMAND_LENGTH : Nat := 100

/-- The value of `EXIT_SUCCESS`. -/
def EXIT_SUCCESS : Nat := 0

/-- The value of `EXIT_FAILURE`. -/
def EXIT_FAILURE : Nat := 1

/-- The descriptor of standard output. -/
def STDOUT_FILENO : Nat := 1

/-- The descriptor of the error stream. -/
def STDERR_FILENO : Nat := 2

/-- The NUL byte that terminates a C string. -/
def NUL : Char := Char.ofNat 0

/-- The bytes `write(fd, lit, n)` sends when `lit` is a string literal: the first
`n` bytes of the array of the literal, which ends with a NUL. -/
def literal_bytes (lit : String) (n : Nat) : List Char :=
  (lit.toList ++ [NUL]).take n

/-- The oracles of the operating system the shell runs on. -/
structure World where
  /-- The answer of `isatty(STDIN_FILENO)`. -/
  interactive : Bool
  /-- The answer of `getenv("PATH")`; `none` is the null pointer. -/
  path : Option (List Char)
  /-- Whether `access(p, X_OK) == 0`. -/
  access_x : List Char → Bool
  /-- Whether `execve(p, args, NULL)` replaces the image (it does not return). -/
  execve_ok : List Char → Bool
  /-- Whether the `n`-th call of `fork` (counted from 0) succeeds. -/
  fork_ok : Nat → Bool
  /-- Whether the `n`-th call of `waitpid` (counted from 0) succeeds. -/
  wait_ok : Nat → Bool
  /-- The input the shell finds after the `n`-th call of `execute_command`
  (counted from 0) has returned, given the input left when it was called: the
  child shares the descriptor of standard input and may read from it or move
  its position. -/
  stdin_after : Nat → List Char → List Char

/-- The string a C array of bytes holds: the bytes before the first NUL. -/
def cstr (buf : List Char) : List Char :=
  buf.takeWhile (fun c => c != NUL)

/-- The bytes `fgets` stores when at most `k` may be stored: it stops after a
newline, at end of input, or when `k` bytes are stored. Returns the bytes
stored and the input left. -/
def fgets_read : Nat → List Char → List Char × List Char
  | 0, s => ([], s)
  | _ + 1, [] => ([], [])
  | k + 1, c :: cs =>
    if c = '\n' then ([c], cs)
    else ((c :: (fgets_read k cs).1), (fgets_read k cs).2)

/-- The call `fgets(command, size, stdin)`: `none` is the null pointer (end of
input with nothing read), otherwise the bytes stored (at most `size - 1`) and
the input left. -/
def fgets (size : Nat) (stdin : List Char) : Option (List Char × List Char) :=
  match stdin with
  | [] => none
  | _ :: _ => some (fgets_read (size - 1) stdin)

/-- The trim step of `main`: with `length = strlen(command)`, when
`length > 0 && command[length - 1] == '\n'` the byte at `length - 1` is
overwritten by NUL, which leaves the first `length - 1` bytes. -/
def trim (command : List Char) : List Char :=
  let length := command.length
  if 0 < length ∧ command[length - 1]? = some '\n' then
    command.take (length - 1)
  else command

/-- The tokens the successive calls of `strtok` on a string return for the one
delimiter `d`: the maximal runs of bytes other than `d`. The second argument
is the token being read. -/
def strtok_go (d : Char) : List Char → List Char → List (List Char)
  | [], cur => if cur = [] then [] else [cur]
  | c :: cs, cur =>
    if c = d then
      (if cur = [] then strtok_go d cs [] else cur :: strtok_go d cs [])
    else strtok_go d cs (cur ++ [c])

/-- All the tokens of `s` for the delimiter `d`, in order. -/
def strtok_tokens (d : Char) (s : List Char) : List (List Char) :=
  strtok_go d s []

/-- The loop `while (token != NULL && i < MAX_COMMAND_LENGTH - 1) args[i++] = token`
of `execute_command`, started at index `i` on the tokens still to come. -/
def fill_args : List (List Char) → Nat → List (List Char)
  | [], _ => []
  | token :: more, i =>
    if i < MAX_COMMAND_LENGTH - 1 then token :: fill_args more (i + 1) else []

/-- The argument vector `args` of `execute_command`, without its sentinel. -/
def tokenize (command : List Char) : List (List Char) :=
  fill_args (strtok_tokens ' ' command) 0

/-- The system calls of the child process that can be observed. -/
inductive Event where
  /-- The call `access(p, X_OK)`. -/
  | access (p : List Char)
  /-- The call `write(fd, bytes, n)` with the `n` bytes written. -/
  | write (fd : Nat) (bytes : List Char)
  /-- The call `execve(p, args, NULL)`. -/
  | execve (p : List Char) (args : List (List Char))
  /-- The call `perror(s)`. -/
  | perror (s : List Char)
  /-- The call `exit(code)`. -/
  | exit (code : Nat)
  deriving DecidableEq, Repr

/-- The call `execve(p, args, NULL)` and what follows it: nothing when the
image is replaced, otherwise `perror("execve"); exit(EXIT_FAILURE)`. -/
def try_execve (w : World) (p : List Char) (args : List (List Char)) : List Event :=
  if w.execve_ok p then [Event.execve p args]
  else [Event.execve p args, Event.perror "execve".toList, Event.exit EXIT_FAILURE]

/-- The result of `snprintf(executable_path, sizeof(executable_path), "%s/%s", dir, args[0])`:
at most `MAX_COMMAND_LENGTH - 1` bytes are stored. -/
def executable_path (dir arg0 : List Char) : List Char :=
  (dir ++ '/' :: arg0).take (MAX_COMMAND_LENGTH - 1)

/-- The loop over the directories of `PATH` in the child, and the
command-not-found output after it. The literal `"Command not found: "` has 19
bytes and the call writes 20, so the terminating NUL is written too. -/
def scan_path (w : World) (arg0 : List Char) (args : List (List Char)) :
    List (List Char) → List Event
  | [] =>
    [Event.write STDERR_FILENO (literal_bytes "Command not found: " 20),
     Event.write STDERR_FILENO arg0,
     Event.write STDERR_FILENO (literal_bytes "\n" 1),
     Event.exit EXIT_FAILURE]
  | dir :: more =>
    if w.access_x (executable_path dir arg0) then
      Event.access (executable_path dir arg0) ::
        try_execve w (executable_path dir arg0) args
    else
      Event.access (executable_path dir arg0) :: scan_path w arg0 args more

/-- The child branch of `execute_command` (`pid == 0`). The result is `none`
when the argument vector is empty: `args[0]` is then the null sentinel, and
`strcmp(args[0], "exit")` reads through it. -/
def child (w : World) (command : List Char) : Option (List Event) :=
  match tokenize command with
  | [] => none
  | arg0 :: rest =>
    if arg0 = "exit".toList then
      some [Event.write STDOUT_FILENO (literal_bytes " Exit \n" 6), Event.exit EXIT_SUCCESS]
    else if w.access_x arg0 then
      some (Event.access arg0 :: try_execve w arg0 (arg0 :: rest))
    else
      match w.path with
      | none =>
        some [Event.access arg0,
              Event.write STDERR_FILENO (literal_bytes "PATH environment variable not set,\n" 36),
              Event.exit EXIT_FAILURE]
      | some path =>
        some (Event.access arg0 :: scan_path w arg0 (arg0 :: rest) (strtok_tokens ':' path))

/-- The paths the trace hands to `execve`. -/
def execve_paths : List Event → List (List Char)
  | [] => []
  | Event.execve p _ :: more => p :: execve_paths more
  | _ :: more => execve_paths more

/-- The paths the trace tests with `access`. -/
def access_paths : List Event → List (List Char)
  | [] => []
  | Event.access p :: more => p :: access_paths more
  | _ :: more => access_paths more

/-- The bytes the trace writes to the descriptor `fd`, in order. -/
def written (fd : Nat) : List Event → List Char
  | [] => []
  | Event.write fd' bytes :: more =>
    if fd' = fd then bytes ++ written fd more else written fd more
  | _ :: more => written fd more

/-- The status the trace ends the process with, when it calls `exit`. -/
def exit_status : List Event → Option Nat
  | [] => none
  | Event.exit code :: _ => some code
  | _ :: more => exit_status more

/-- What the shell process itself has done so far. -/
structure ShellState where
  /-- The variable `should_print_prompt` of `main`. -/
  should_print_prompt : Bool
  /-- The bytes the shell process has written to standard output. -/
  out : List Char
  /-- The `perror` calls of the shell process. -/
  err : List (List Char)
  /-- The commands `execute_command` has been called with, in order. -/
  calls : List (List Char)
  deriving DecidableEq, Repr

/-- How one pass through the body of the `while (1)` loop ends. -/
inductive Step where
  /-- The body ends or reaches `continue`: the loop goes on. -/
  | again (s : ShellState)
  /-- The body reaches `break`: `main` returns `EXIT_SUCCESS`. -/
  | leave (s : ShellState)
  /-- The process ends in `exit(EXIT_FAILURE)` inside `execute_command`. -/
  | fatal (s : ShellState)
  deriving DecidableEq, Repr

/-- The function `display_prompt`. -/
def display_prompt (s : ShellState) : ShellState :=
  { s with out := s.out ++ literal_bytes "Gloriah_shell$ " 15 }

/-- The parent side of `execute_command(command)`: the call is recorded, then
`fork` and `waitpid` succeed or end the process. The result is the state and
whether the call returns. -/
def execute_command (w : World) (s : ShellState) (command : List Char) :
    ShellState × Bool :=
  let n := s.calls.length
  let s1 := { s with calls := s.calls ++ [command] }
  if !w.fork_ok n then ({ s1 with err := s1.err ++ ["fork".toList] }, false)
  else if !w.wait_ok n then ({ s1 with err := s1.err ++ ["waitpid".toList] }, false)
  else (s1, true)

/-- The body of the loop of `main` after `fgets` has stored `buf`: the trim,
the `exit` and `env` built-ins, and the hand-over to `execute_command`. The
literal `"($)\n"` has 4 bytes and the call writes 5, so the terminating NUL is
written too. -/
def process_line (w : World) (s : ShellState) (buf : List Char) : Step :=
  let command := trim (cstr buf)
  if command = "exit".toList then Step.leave s
  else if command = "env".toList then
    match w.path with
    | some env_var =>
      if w.interactive then
        Step.again { s with out := s.out ++ env_var ++ literal_bytes "\n" 1,
                            should_print_prompt := true }
      else Step.again { s with should_print_prompt := true }
    | none => Step.again { s with should_print_prompt := true }
  else if w.interactive || command.head? != none then
    match execute_command w s command with
    | (s1, false) => Step.fatal s1
    | (s1, true) =>
      if w.interactive then
        Step.again { s1 with out := s1.out ++ literal_bytes "($)\n" 5,
                             should_print_prompt := true }
      else Step.again { s1 with should_print_prompt := false }
  else Step.again s

/-- The part of the loop body before `fgets`: the prompt, when it is due. -/
def prompt_phase (w : World) (s : ShellState) : ShellState :=
  if w.interactive && s.should_print_prompt then display_prompt s else s

/-- The input the next `fgets` of the shell reads from, after a pass that
started in the state `before` with `rest` unread and ended in `after`: `rest`
when the pass did not call `execute_command`, otherwise what the child of that
call has left. -/
def stdin_left (w : World) (before after : ShellState) (rest : List Char) : List Char :=
  if after.calls.length = before.calls.length then rest
  else w.stdin_after before.calls.length rest

/-- The loop of `main`, run for at most `fuel` passes: `none` when the passes
run out, otherwise the exit code of the process and its final state. -/
def main_loop (w : World) : Nat → ShellState → List Char → Option (Nat × ShellState)
  | 0, _, _ => none
  | fuel + 1, s, stdin =>
    match fgets MAX_COMMAND_LENGTH stdin with
    | none => some (EXIT_SUCCESS, prompt_phase w s)
    | some (buf, rest) =>
      match process_line w (prompt_phase w s) buf with
      | Step.again s1 => main_loop w fuel s1 (stdin_left w (prompt_phase w s) s1 rest)
      | Step.leave s1 => some (EXIT_SUCCESS, s1)
      | Step.fatal s1 => some (EXIT_FAILURE, s1)

/-- The state `main` starts its loop in. -/
def initial_state : ShellState :=
  { should_print_prompt := true, out := [], err := [], calls := [] }

/-- The function `main`: every pass reads at least one byte, so when no child
puts input back, one pass per byte of input and one more for the end of input
are enough. -/
def main (w : World) (stdin : List Char) : Option (Nat × ShellState) :=
  main_loop w (stdin.length + 1) initial_state stdin

/-- A world for examples: `PATH=/bin:/usr/bin`, the executables are those in
`exe`, every `execve`, `fork` and `waitpid` succeeds, and no child touches
standard input. -/
def sample_world (interactive : Bool) (exe : List (List Char)) : World :=
  { interactive := interactive,
    path := some "/bin:/usr/bin".toList,
    access_x := fun p => decide (p ∈ exe),
    execve_ok := fun _ => true,
    fork_ok := fun _ => true,
    wait_ok := fun _ => true,
    stdin_after := fun _ rest => rest }

/-- A directory name of 97 bytes: with `/ls` appended the path has 100 bytes and
does not fit, with its NUL, the 100-byte buffer `executable_path`. -/
def long_dir : List Char := '/' :: List.replicate 96 'a'

/-- A world whose `PATH` is the one directory `long_dir`, where `long_dir/ls` is
the only executable. -/
def long_world : World :=
  { interactive := false,
    path := some long_dir,
    access_x := fun p => decide (p = long_dir ++ "/ls".toList),
    execve_ok := fun _ => true,
    fork_ok := fun _ => true,
    wait_ok := fun _ => true,
    stdin_after := fun _ rest => rest }

/-! ## Lists -/

theorem intercalate_cons_cons (sep x y : List Char) (ys : List (List Char)) :
    List.intercalate sep (x :: y :: ys) = x ++ sep ++ List.intercalate sep (y :: ys) := by
  simp [List.intercalate, List.intersperse]

theorem intercalate_single (sep x : List Char) : List.intercalate sep [x] = x := by
  simp [List.intercalate, List.intersperse]

/-! ## The trim step -/

theorem trim_eq_dropLast (l : List Char) :
    trim l = if l.getLast? = some '\n' then l.dropLast else l := by
  unfold trim
  simp only [List.getLast?_eq_getElem?, List.dropLast_eq_take]
  by_cases h : l[l.length - 1]? = some '\n'
  · have hpos : 0 < l.length := by
      cases l with
      | nil => simp at h
      | cons a t => simp
    simp [h, hpos]
  · simp [h]

theorem trim_of_not_mem (l : List Char) (h : '\n' ∉ l) : trim l = l := by
  rw [trim_eq_dropLast]
  have : l.getLast? ≠ some '\n' := fun hl => h (List.mem_of_getLast?_eq_some hl)
  simp [this]

theorem fgets_read_dropLast (k : Nat) (s : List Char) :
    '\n' ∉ (fgets_read k s).1.dropLast := by
  induction k generalizing s with
  | zero => simp [fgets_read]
  | succ k ih =>
    cases s with
    | nil => simp [fgets_read]
    | cons c cs =>
      by_cases hc : c = '\n'
      · simp [fgets_read, hc]
      · simp only [fgets_read, hc, if_false]
        have h := ih cs
        cases hr : (fgets_read k cs).1 with
        | nil => simp
        | cons a t =>
          rw [hr] at h
          simp only [List.dropLast_cons₂, List.mem_cons, not_or]
          exact ⟨fun e => hc e.symm, h⟩

theorem takeWhile_dropLast_not_mem (p : Char → Bool) (l : List Char)
    (h : '\n' ∉ l.dropLast) : '\n' ∉ (l.takeWhile p).dropLast := by
  induction l with
  | nil => simp
  | cons a t ih =>
    cases t with
    | nil =>
      by_cases hp : p a <;> simp [List.takeWhile, hp]
    | cons b u =>
      simp only [List.dropLast_cons₂, List.mem_cons, not_or] at h
      by_cases hp : p a
      · rw [List.takeWhile_cons_of_pos hp]
        cases hq : (b :: u).takeWhile p with
        | nil => simp
        | cons x y =>
          have := ih h.2
          rw [hq] at this
          simp only [List.dropLast_cons₂, List.mem_cons, not_or]
          exact ⟨h.1, this⟩
      · rw [List.takeWhile_cons_of_neg hp]; simp

theorem trim_not_mem (l : List Char) (h : '\n' ∉ l.dropLast) : '\n' ∉ trim l := by
  rw [trim_eq_dropLast]
  by_cases hl : l.getLast? = some '\n'
  · simpa [hl] using h
  · simp only [hl, if_false]
    intro hm
    rcases List.eq_nil_or_concat l with rfl | ⟨t, a, rfl⟩
    · simp at hm
    · have hl2 : a ≠ '\n' := by
        intro e
        apply hl
        simp [e]
      simp only [List.concat_eq_append, List.dropLast_concat] at h
      simp only [List.concat_eq_append, List.mem_append, List.mem_singleton] at hm
      rcases hm with hm | hm
      · exact h hm
      · exact hl2 hm.symm

theorem cstr_fgets_dropLast (size : Nat) (stdin buf rest : List Char)
    (h : fgets size stdin = some (buf, rest)) : '\n' ∉ (cstr buf).dropLast := by
  cases stdin with
  | nil => simp [fgets] at h
  | cons c cs =>
    simp only [fgets, Option.some.injEq] at h
    have hb : buf = (fgets_read (size - 1) (c :: cs)).1 := by rw [h]
    rw [hb]
    exact takeWhile_dropLast_not_mem _ _ (fgets_read_dropLast _ _)

/-! ## The tokenizer -/

theorem strtok_go_ne_nil (d : Char) (cs cur : List Char) (h : cur ≠ []) :
    strtok_go d cs cur ≠ [] := by
  induction cs generalizing cur with
  | nil => simp [strtok_go, h]
  | cons c cs ih =>
    by_cases hc : c = d
    · simp [strtok_go, hc, h]
    · simp only [strtok_go, hc, if_false]
      exact ih _ (by simp)

theorem strtok_go_length (d : Char) (cs cur : List Char) :
    (strtok_go d cs cur).length ≤ cs.length + 1 ∧
      (cur = [] → (strtok_go d cs cur).length ≤ cs.length) := by
  induction cs generalizing cur with
  | nil =>
    by_cases h : cur = [] <;> simp [strtok_go, h]
  | cons c cs ih =>
    by_cases hc : c = d
    · by_cases h : cur = []
      · have := (ih []).2 rfl
        simp only [strtok_go, hc, h, if_true, List.length_cons]
        omega
      · have := (ih []).2 rfl
        simp only [strtok_go, hc, h, if_true, if_false, List.length_cons]
        omega
    · have := (ih (cur ++ [c])).1
      simp only [strtok_go, hc, if_false, List.length_cons]
      omega

theorem fill_args_eq (ts : List (List Char)) (i : Nat)
    (h : i + ts.length ≤ MAX_COMMAND_LENGTH - 1) : fill_args ts i = ts := by
  induction ts generalizing i with
  | nil => rfl
  | cons t ts ih =>
    simp only [List.length_cons] at h
    have hi : i < MAX_COMMAND_LENGTH - 1 := by omega
    simp only [fill_args, hi, if_true]
    rw [ih (i + 1) (by omega)]

theorem strtok_go_join (d : Char) (cs cur : List Char)
    (hcur : cur = [] → cs.head? ≠ some d)
    (hlast : cs.getLast? ≠ some d)
    (hadj : List.Chain' (fun a b => ¬ (a = d ∧ b = d)) cs) :
    List.intercalate [d] (strtok_go d cs cur) = cur ++ cs := by
  induction cs generalizing cur with
  | nil =>
    by_cases h : cur = []
    · simp [strtok_go, h, List.intercalate]
    · simp [strtok_go, h, intercalate_single]
  | cons c cs ih =>
    by_cases hc : c = d
    · have hne : cur ≠ [] := by
        intro e
        exact hcur e (by simp [hc])
      cases cs with
      | nil => simp [hc] at hlast
      | cons c2 cs2 =>
        have hc2 : c2 ≠ d := by
          intro e
          have := List.Chain'.rel_head hadj
          exact this ⟨hc, e⟩
        have hrest := ih []
          (fun _ => by simp [hc2])
          (by simpa using hlast)
          (List.Chain'.tail hadj)
        have hnil : strtok_go d (c2 :: cs2) [] ≠ [] := by
          simp only [strtok_go, hc2, if_false]
          exact strtok_go_ne_nil d cs2 _ (by simp)
        have e : strtok_go d (c :: c2 :: cs2) cur = cur :: strtok_go d (c2 :: cs2) [] := by
          rw [strtok_go]
          simp [hc, hne]
        obtain ⟨y, ys, hy⟩ := List.exists_cons_of_ne_nil hnil
        rw [e, hy, intercalate_cons_cons, ← hy, hrest]
        simp [hc]
    · simp only [strtok_go, hc, if_false]
      rw [ih (cur ++ [c]) (fun e => by simp at e)]
      · simp
      · intro e
        apply hlast
        cases cs with
        | nil => simp at e
        | cons c2 cs2 => simpa using e
      · exact List.Chain'.tail hadj

/-! ## The reader and the loop -/

theorem fgets_read_rest_le (k : Nat) (s : List Char) :
    (fgets_read k s).2.length ≤ s.length := by
  induction k generalizing s with
  | zero => simp [fgets_read]
  | succ k ih =>
    cases s with
    | nil => simp [fgets_read]
    | cons c cs =>
      by_cases hc : c = '\n'
      · simp [fgets_read, hc]
      · simp only [fgets_read, hc, if_false, List.length_cons]
        have := ih cs
        omega

theorem fgets_rest_lt (stdin buf rest : List Char)
    (h : fgets MAX_COMMAND_LENGTH stdin = some (buf, rest)) : rest.length < stdin.length := by
  cases stdin with
  | nil => simp [fgets] at h
  | cons c cs =>
    simp only [fgets, MAX_COMMAND_LENGTH, Option.some.injEq] at h
    have hr : rest = (fgets_read 99 (c :: cs)).2 := by rw [h]
    rw [hr]
    by_cases hc : c = '\n'
    · simp [fgets_read, hc]
    · simp only [fgets_read, hc, if_false, List.length_cons]
      have := fgets_read_rest_le 98 cs
      omega

theorem stdin_left_le (w : World) (hw : ∀ n r, (w.stdin_after n r).length ≤ r.length)
    (before after : ShellState) (rest : List Char) :
    (stdin_left w before after rest).length ≤ rest.length := by
  unfold stdin_left
  split
  · exact Nat.le_refl _
  · exact hw _ _

/-- The loop of `main` ends on every input when no child puts input back: with
more passes than bytes of input it returns an exit code. -/
theorem main_loop_total (w : World) (hw : ∀ n r, (w.stdin_after n r).length ≤ r.length)
    (fuel : Nat) (s : ShellState) (stdin : List Char)
    (h : stdin.length < fuel) : ∃ r, main_loop w fuel s stdin = some r := by
  induction fuel generalizing s stdin with
  | zero => omega
  | succ fuel ih =>
    cases hf : fgets MAX_COMMAND_LENGTH stdin with
    | none => exact ⟨(EXIT_SUCCESS, prompt_phase w s), by simp [main_loop, hf]⟩
    | some br =>
      obtain ⟨buf, rest⟩ := br
      have hlt := fgets_rest_lt stdin buf rest hf
      cases hp : process_line w (prompt_phase w s) buf with
      | again s1 =>
        have hle := stdin_left_le w hw (prompt_phase w s) s1 rest
        obtain ⟨r, hr⟩ := ih s1 (stdin_left w (prompt_phase w s) s1 rest) (by omega)
        exact ⟨r, by simp [main_loop, hf, hp, hr]⟩
      | leave s1 => exact ⟨(EXIT_SUCCESS, s1), by simp [main_loop, hf, hp]⟩
      | fatal s1 => exact ⟨(EXIT_FAILURE, s1), by simp [main_loop, hf, hp]⟩

/-- The function `main` returns an exit code on every input when no child puts
input back. -/
theorem main_total (w : World) (hw : ∀ n r, (w.stdin_after n r).length ≤ r.length)
    (stdin : List Char) : ∃ r, main w stdin = some r :=
  main_loop_total w hw _ _ _ (Nat.lt_succ_self _)

theorem process_line_fatal (w : World) (s s1 : ShellState) (buf : List Char)
    (h : process_line w s buf = Step.fatal s1) :
    execute_command w s (trim (cstr buf)) = (s1, false) := by
  unfold process_line at h
  simp only at h
  split at h
  · simp at h
  · split at h
    · split at h
      · split at h <;> simp at h
      · simp at h
    · split at h
      · split at h
        · rename_i s2 heq
          simp only [Step.fatal.injEq] at h
          rw [heq, h]
        · split at h <;> simp at h
      · simp at h

theorem prompt_phase_calls (w : World) (s : ShellState) :
    (prompt_phase w s).calls = s.calls := by
  unfold prompt_phase display_prompt
  split <;> rfl

/-! ## The child -/

theorem execve_paths_try_execve (w : World) (p : List Char) (args : List (List Char)) :
    execve_paths (try_execve w p args) = [p] := by
  unfold try_execve
  split <;> simp [execve_paths]

theorem access_paths_try_execve (w : World) (p : List Char) (args : List (List Char)) :
    access_paths (try_execve w p args) = [] := by
  unfold try_execve
  split <;> simp [access_paths]

theorem executable_path_fits (dir arg0 : List Char)
    (h : (dir ++ '/' :: arg0).length ≤ MAX_COMMAND_LENGTH - 1) :
    executable_path dir arg0 = dir ++ '/' :: arg0 := by
  unfold executable_path
  exact List.take_of_length_le h

theorem scan_path_first_hit (w : World) (arg0 : List Char) (args : List (List Char))
    (pre : List (List Char)) (dk : List Char) (post : List (List Char))
    (hfit : ∀ d ∈ pre ++ [dk], (d ++ '/' :: arg0).length ≤ MAX_COMMAND_LENGTH - 1)
    (hpre : ∀ d ∈ pre, w.access_x (d ++ '/' :: arg0) = false)
    (hk : w.access_x (dk ++ '/' :: arg0) = true) :
    execve_paths (scan_path w arg0 args (pre ++ dk :: post)) = [dk ++ '/' :: arg0] ∧
    access_paths (scan_path w arg0 args (pre ++ dk :: post)) =
      (pre ++ [dk]).map (fun d => d ++ '/' :: arg0) := by
  induction pre with
  | nil =>
    have e := executable_path_fits dk arg0 (hfit dk (by simp))
    simp [scan_path, e, hk, execve_paths, access_paths, execve_paths_try_execve,
      access_paths_try_execve]
  | cons d pre ih =>
    have e := executable_path_fits d arg0 (hfit d (by simp))
    have hd := hpre d (by simp)
    have := ih (fun x hx => hfit x (by
      simp only [List.mem_append, List.mem_singleton] at hx
      simp only [List.cons_append, List.mem_cons, List.mem_append, List.mem_singleton]
      tauto)) (fun x hx => hpre x (by simp [hx]))
    simp [scan_path, e, hd, execve_paths, access_paths, this]

/-! ## The claims -/

/-- C8: for every command line `fgets` stores, the trim step of `main` removes
exactly one trailing newline when the line ends with one, returns the line
unchanged otherwise (spaces and tabs are kept), and is idempotent. -/
theorem C8_trim_newline_only_idempotent (stdin buf rest : List Char)
    (h : fgets MAX_COMMAND_LENGTH stdin = some (buf, rest)) :
    ((cstr buf).getLast? = some '\n' → cstr buf = trim (cstr buf) ++ ['\n']) ∧
    ((cstr buf).getLast? ≠ some '\n' → trim (cstr buf) = cstr buf) ∧
    trim (trim (cstr buf)) = trim (cstr buf) := by
  refine ⟨?_, ?_, ?_⟩
  · intro hl
    rw [trim_eq_dropLast, if_pos hl]
    rcases List.eq_nil_or_concat (cstr buf) with e | ⟨t, a, e⟩
    · rw [e] at hl; simp at hl
    · rw [e] at hl ⊢
      simp only [List.concat_eq_append, List.getLast?_concat, Option.some.injEq] at hl
      simp [hl]
  · intro hl
    rw [trim_eq_dropLast, if_neg hl]
  · exact trim_of_not_mem _ (trim_not_mem _ (cstr_fgets_dropLast _ _ _ _ h))

/-- Witness of C8 on the whitespace-only line `" \t \n"` followed by `ls`. -/
theorem C8_trim_witness :
    trim (cstr " \t \n".toList) = " \t ".toList ∧
    trim (trim (cstr " \t \n".toList)) = trim (cstr " \t \n".toList) :=
  ⟨by decide,
   (C8_trim_newline_only_idempotent " \t \nls\n".toList " \t \n".toList "ls\n".toList
      (by decide)).2.2⟩

/-- C9: for every command line of at most 99 bytes with no leading space, no
trailing space and no two adjacent spaces, the token cap of `execute_command`
drops no token, and joining the argument vector with single spaces gives back
the line. -/
theorem C9_tokenizer_round_trip (line : List Char)
    (hfit : line.length ≤ MAX_COMMAND_LENGTH - 1)
    (hlead : line.head? ≠ some ' ')
    (htrail : line.getLast? ≠ some ' ')
    (hadj : List.Chain' (fun a b => ¬ (a = ' ' ∧ b = ' ')) line) :
    tokenize line = strtok_tokens ' ' line ∧
    List.intercalate [' '] (tokenize line) = line := by
  have hcap : tokenize line = strtok_tokens ' ' line := by
    unfold tokenize
    apply fill_args_eq
    have := (strtok_go_length ' ' line []).2 rfl
    unfold strtok_tokens
    omega
  refine ⟨hcap, ?_⟩
  rw [hcap]
  unfold strtok_tokens
  rw [strtok_go_join ' ' line [] (fun _ => hlead) htrail hadj]
  simp

/-- Witness of C9 on the line `ls -l /tmp`. -/
theorem C9_round_trip_witness :
    tokenize "ls -l /tmp".toList = ["ls".toList, "-l".toList, "/tmp".toList] ∧
    List.intercalate [' '] (tokenize "ls -l /tmp".toList) = "ls -l /tmp".toList :=
  ⟨by decide,
   (C9_tokenizer_round_trip "ls -l /tmp".toList (by decide) (by decide) (by decide)
      (by simp)).2⟩

/-- C3: for every line read, the loop of `main` reaches `break` on it exactly
when the trimmed line is `exit`; then `execute_command` is not called for it
and `main` returns exit code 0. On every other line the loop does not end:
either it goes on with the next `fgets`, so that `main` returns what the rest
of the loop returns, or `fork` or `waitpid` has failed inside
`execute_command` and the process ends with exit code 1. -/
theorem C3_exit_builtin (w : World) (fuel : Nat) (s : ShellState)
    (stdin buf rest : List Char)
    (h : fgets MAX_COMMAND_LENGTH stdin = some (buf, rest)) :
    ((∃ s1, process_line w (prompt_phase w s) buf = Step.leave s1) ↔
        trim (cstr buf) = "exit".toList) ∧
    (trim (cstr buf) = "exit".toList →
      process_line w (prompt_phase w s) buf = Step.leave (prompt_phase w s) ∧
      (prompt_phase w s).calls = s.calls ∧
      main_loop w (fuel + 1) s stdin = some (0, prompt_phase w s)) ∧
    (trim (cstr buf) ≠ "exit".toList →
      (∃ s1, process_line w (prompt_phase w s) buf = Step.again s1 ∧
        main_loop w (fuel + 1) s stdin =
          main_loop w fuel s1 (stdin_left w (prompt_phase w s) s1 rest)) ∨
      (∃ s1, process_line w (prompt_phase w s) buf = Step.fatal s1 ∧
        execute_command w (prompt_phase w s) (trim (cstr buf)) = (s1, false) ∧
        main_loop w (fuel + 1) s stdin = some (1, s1))) := by
  have hexit : trim (cstr buf) = "exit".toList →
      process_line w (prompt_phase w s) buf = Step.leave (prompt_phase w s) := by
    intro e
    simp [process_line, e]
  have honly : (∃ s1, process_line w (prompt_phase w s) buf = Step.leave s1) →
      trim (cstr buf) = "exit".toList := by
    rintro ⟨s1, hs1⟩
    by_contra hne
    unfold process_line at hs1
    simp only [hne, if_false] at hs1
    split at hs1
    · split at hs1
      · split at hs1 <;> simp at hs1
      · simp at hs1
    · split at hs1
      · split at hs1
        · simp at hs1
        · split at hs1 <;> simp at hs1
      · simp at hs1
  refine ⟨⟨honly, fun e => ⟨_, hexit e⟩⟩,
    fun e => ⟨hexit e, prompt_phase_calls w s, ?_⟩, fun hne => ?_⟩
  · simp [main_loop, h, hexit e, EXIT_SUCCESS]
  · cases hp : process_line w (prompt_phase w s) buf with
    | again s1 =>
      exact Or.inl ⟨s1, rfl, by simp [main_loop, h, hp]⟩
    | leave s1 => exact absurd (honly ⟨s1, hp⟩) hne
    | fatal s1 =>
      exact Or.inr ⟨s1, rfl, process_line_fatal w _ s1 buf hp,
        by simp [main_loop, h, hp, EXIT_FAILURE]⟩

/-- Witness of C3 on the input `exit`, then on the input `ls` followed by
`exit`, in an interactive shell. -/
theorem C3_exit_witness :
    main_loop (sample_world true []) 1 initial_state "exit\n".toList =
      some (0, prompt_phase (sample_world true []) initial_state) ∧
    ((∃ s1, process_line (sample_world true [])
          (prompt_phase (sample_world true []) initial_state) "ls\n".toList = Step.again s1 ∧
        main_loop (sample_world true []) 2 initial_state "ls\nexit\n".toList =
          main_loop (sample_world true []) 1 s1
            (stdin_left (sample_world true [])
              (prompt_phase (sample_world true []) initial_state) s1 "exit\n".toList)) ∨
      (∃ s1, process_line (sample_world true [])
          (prompt_phase (sample_world true []) initial_state) "ls\n".toList = Step.fatal s1 ∧
        execute_command (sample_world true [])
          (prompt_phase (sample_world true []) initial_state) (trim (cstr "ls\n".toList)) =
            (s1, false) ∧
        main_loop (sample_world true []) 2 initial_state "ls\nexit\n".toList = some (1, s1))) :=
  ⟨(C3_exit_builtin (sample_world true []) 0 initial_state "exit\n".toList "exit\n".toList []
      (by decide)).2.1 (by decide) |>.2.2,
   (C3_exit_builtin (sample_world true []) 1 initial_state "ls\nexit\n".toList "ls\n".toList
      "exit\n".toList (by decide)).2.2 (by decide)⟩

/-- C7: for every line whose trimmed content is `env`, `execute_command` is not
called and the prompt flag is set; an interactive shell with `PATH` set to `v`
writes `v` and a newline to standard output, and a non-interactive shell or an
unset `PATH` writes nothing. -/
theorem C7_env_builtin (w : World) (s : ShellState) (buf : List Char)
    (h : trim (cstr buf) = "env".toList) :
    ∃ s1, process_line w s buf = Step.again s1 ∧
      s1.calls = s.calls ∧ s1.err = s.err ∧ s1.should_print_prompt = true ∧
      (∀ v, w.path = some v → w.interactive = true →
        s1.out = s.out ++ (v ++ "\n".toList)) ∧
      (w.interactive = false ∨ w.path = none → s1.out = s.out) := by
  have hne : ¬ ("env".toList = "exit".toList) := by decide
  unfold process_line
  simp only [h, hne, if_false, if_true]
  cases hp : w.path with
  | none => exact ⟨_, rfl, rfl, rfl, rfl, by simp, by simp⟩
  | some v =>
    cases hi : w.interactive with
    | false => exact ⟨_, rfl, rfl, rfl, rfl, by simp, by simp⟩
    | true =>
      have hnl : literal_bytes "\n" 1 = "\n".toList := by decide
      exact ⟨_, rfl, rfl, rfl, rfl, by simp [hnl], by simp⟩

/-- Witness of C7 on the line `env` in an interactive shell with
`PATH=/bin:/usr/bin`. -/
theorem C7_env_witness :
    ∃ s1, process_line (sample_world true []) initial_state "env\n".toList = Step.again s1 ∧
      s1.calls = [] ∧ s1.err = [] ∧ s1.should_print_prompt = true ∧
      (∀ v, (sample_world true []).path = some v → (sample_world true []).interactive = true →
        s1.out = [] ++ (v ++ "\n".toList)) ∧
      ((sample_world true []).interactive = false ∨ (sample_world true []).path = none →
        s1.out = []) :=
  C7_env_builtin (sample_world true []) initial_state "env\n".toList (by decide)

/-- C1, counterexample: with an executable file `exit` in the current
directory, the line `exit now` makes the child write its notice and end with
status 0; nothing is handed to `execve`. -/
theorem C1_exit_token_not_executed :
    tokenize "exit now".toList = ["exit".toList, "now".toList] ∧
    (sample_world false ["exit".toList]).access_x "exit".toList = true ∧
    child (sample_world false ["exit".toList]) "exit now".toList =
      some [Event.write 1 " Exit ".toList, Event.exit 0] ∧
    (child (sample_world false ["exit".toList]) "exit now".toList).map execve_paths =
      some [] := by
  decide

/-- C1, amended: for every program-name token other than `exit` that is
executable as given, and for every value of `PATH`, the child tests that token
alone with `access` and hands it unchanged to `execve`. -/
theorem C1_bare_token_precedence (w : World) (command arg0 : List Char)
    (rest : List (List Char))
    (htok : tokenize command = arg0 :: rest)
    (hne : arg0 ≠ "exit".toList)
    (hx : w.access_x arg0 = true) :
    ∃ tr, child w command = some tr ∧
      tr.take 2 = [Event.access arg0, Event.execve arg0 (arg0 :: rest)] ∧
      execve_paths tr = [arg0] ∧ access_paths tr = [arg0] := by
  refine ⟨Event.access arg0 :: try_execve w arg0 (arg0 :: rest), ?_, ?_, ?_, ?_⟩
  · have hne2 := hne
    simp only [String.toList] at hne2
    simp [child, htok, hne2, hx]
  · unfold try_execve
    split <;> simp
  · simp [execve_paths, execve_paths_try_execve]
  · simp [access_paths, access_paths_try_execve]

/-- Witness of C1 on the line `./prog -v` with `./prog` executable. -/
theorem C1_precedence_witness :
    ∃ tr, child (sample_world false ["./prog".toList, "/bin/./prog".toList]) "./prog -v".toList =
        some tr ∧
      tr.take 2 = [Event.access "./prog".toList,
                   Event.execve "./prog".toList ("./prog".toList :: ["-v".toList])] ∧
      execve_paths tr = ["./prog".toList] ∧ access_paths tr = ["./prog".toList] :=
  C1_bare_token_precedence (sample_world false ["./prog".toList, "/bin/./prog".toList])
    "./prog -v".toList "./prog".toList ["-v".toList] (by decide) (by decide) (by decide)

/-- C2, counterexample: (1) with `/bin/exit` executable and `PATH=/bin:/usr/bin`,
the line `exit 1` hands nothing to `execve`; (2) with `PATH` the one directory
`long_dir` of 97 bytes and `long_dir/ls` executable, the line `ls` tests the
path cut to 99 bytes, `long_dir/l`, and ends in the command-not-found exit. -/
theorem C2_first_hit_not_executed :
    ((sample_world false ["/bin/exit".toList]).access_x "exit".toList = false ∧
     strtok_tokens ':' "/bin:/usr/bin".toList = ["/bin".toList, "/usr/bin".toList] ∧
     (sample_world false ["/bin/exit".toList]).access_x ("/bin".toList ++ '/' :: "exit".toList)
        = true ∧
     (child (sample_world false ["/bin/exit".toList]) "exit 1".toList).map execve_paths =
        some []) ∧
    (long_world.access_x "ls".toList = false ∧
     strtok_tokens ':' long_dir = [long_dir] ∧
     long_world.access_x (long_dir ++ '/' :: "ls".toList) = true ∧
     (child long_world "ls".toList).map access_paths =
        some ["ls".toList, long_dir ++ "/l".toList] ∧
     (child long_world "ls".toList).map execve_paths = some [] ∧
     (child long_world "ls".toList).bind exit_status = some 1) := by
  decide

/-- C2, amended: for every token other than `exit` that is not executable as
given, when the non-empty colon-separated segments of `PATH` are
`pre ++ dk :: post`, every `<d>/<token>` for `d` up to `dk` fits the 99 bytes of
the path buffer, none of them before `dk` is executable and `<dk>/<token>` is,
the child hands exactly `<dk>/<token>` to `execve`, after testing the token
and the directories up to `dk` in order. -/
theorem C2_first_directory_wins (w : World) (command arg0 path dk : List Char)
    (rest pre post : List (List Char))
    (htok : tokenize command = arg0 :: rest)
    (hne : arg0 ≠ "exit".toList)
    (hx : w.access_x arg0 = false)
    (hpath : w.path = some path)
    (hdirs : strtok_tokens ':' path = pre ++ dk :: post)
    (hfit : ∀ d ∈ pre ++ [dk], (d ++ '/' :: arg0).length ≤ MAX_COMMAND_LENGTH - 1)
    (hpre : ∀ d ∈ pre, w.access_x (d ++ '/' :: arg0) = false)
    (hk : w.access_x (dk ++ '/' :: arg0) = true) :
    ∃ tr, child w command = some tr ∧
      execve_paths tr = [dk ++ '/' :: arg0] ∧
      access_paths tr = arg0 :: (pre ++ [dk]).map (fun d => d ++ '/' :: arg0) := by
  have hs := scan_path_first_hit w arg0 (arg0 :: rest) pre dk post hfit hpre hk
  refine ⟨Event.access arg0 :: scan_path w arg0 (arg0 :: rest) (pre ++ dk :: post), ?_, ?_, ?_⟩
  · have hne2 := hne
    simp only [String.toList] at hne2
    simp [child, htok, hne2, hx, hpath, hdirs]
  · simp only [execve_paths]
    exact hs.1
  · simp only [access_paths]
    rw [hs.2]

/-- Witness of C2 on the line `ls -l` with `PATH=/bin:/usr/bin` and `ls`
executable in both directories. -/
theorem C2_first_directory_witness :
    ∃ tr, child (sample_world false ["/usr/bin/ls".toList, "/bin/ls".toList]) "ls -l".toList =
        some tr ∧
      execve_paths tr = ["/bin".toList ++ '/' :: "ls".toList] ∧
      access_paths tr =
        "ls".toList :: ([] ++ ["/bin".toList]).map (fun d => d ++ '/' :: "ls".toList) :=
  C2_first_directory_wins (sample_world false ["/usr/bin/ls".toList, "/bin/ls".toList])
    "ls -l".toList "ls".toList "/bin:/usr/bin".toList "/bin".toList ["-l".toList] []
    ["/usr/bin".toList] (by decide) (by decide) (by decide) (by decide) (by decide)
    (by decide) (by simp) (by decide)

/-- C4, the code at the failing input: for the name `nonexistentcmd123`, found
neither as given nor under `/bin` or `/usr/bin`, the child ends with status 1,
and the bytes it writes to the error stream have a NUL after
`Command not found: `, so they are not the diagnostic of the claim. -/
theorem C4_not_found_writes_nul :
    child (sample_world false []) "nonexistentcmd123".toList =
      some [Event.access "nonexistentcmd123".toList,
            Event.access "/bin/nonexistentcmd123".toList,
            Event.access "/usr/bin/nonexistentcmd123".toList,
            Event.write 2 ("Command not found: ".toList ++ [NUL]),
            Event.write 2 "nonexistentcmd123".toList,
            Event.write 2 "\n".toList,
            Event.exit 1] ∧
    (child (sample_world false []) "nonexistentcmd123".toList).map (written STDERR_FILENO) =
      some ("Command not found: ".toList ++ NUL :: "nonexistentcmd123\n".toList) ∧
    (child (sample_world false []) "nonexistentcmd123".toList).map (written STDERR_FILENO) ≠
      some "Command not found: nonexistentcmd123\n".toList ∧
    "Command not found: ".toList.length = 19 := by
  decide

/-- C5, the code at the failing input: after the line `ls` an interactive shell
has written the five bytes `($)`, newline, NUL to standard output, not the four
bytes of the marker; the prompt flag is set. -/
theorem C5_marker_writes_nul :
    process_line (sample_world true ["/bin/ls".toList]) initial_state "ls\n".toList =
      Step.again { should_print_prompt := true,
                   out := "($)\n".toList ++ [NUL],
                   err := [],
                   calls := ["ls".toList] } ∧
    ("($)\n".toList ++ [NUL]).length = 5 ∧
    "($)\n".toList ++ [NUL] ≠ "($)\n".toList := by
  decide

/-- C6, counterexample: in an interactive shell the empty line is handed to
`execute_command` (the call is recorded with the empty command) and the
completion marker is written. -/
theorem C6_interactive_empty_line_is_delegated :
    trim (cstr "\n".toList) = [] ∧
    process_line (sample_world true []) initial_state "\n".toList =
      Step.again { should_print_prompt := true,
                   out := "($)\n".toList ++ [NUL],
                   err := [],
                   calls := [[]] } := by
  decide

/-- C6, amended: for every line whose trimmed content is empty, a
non-interactive shell goes back to reading with its state unchanged (no call
of `execute_command`, nothing written, the prompt flag kept); an interactive
shell hands the empty command to `execute_command`, and when that call returns
the prompt flag is set. -/
theorem C6_empty_line (w : World) (s : ShellState) (buf : List Char)
    (h : trim (cstr buf) = []) :
    (w.interactive = false → process_line w s buf = Step.again s) ∧
    (w.interactive = true →
      (∃ s1, (process_line w s buf = Step.again s1 ∨ process_line w s buf = Step.fatal s1) ∧
        s1.calls = s.calls ++ [[]]) ∧
      ((execute_command w s []).2 = true →
        ∃ s1, process_line w s buf = Step.again s1 ∧ s1.should_print_prompt = true)) := by
  have hne1 : ¬ (([] : List Char) = "exit".toList) := by decide
  have hne2 : ¬ (([] : List Char) = "env".toList) := by decide
  refine ⟨fun hi => ?_, fun hi => ?_⟩
  · unfold process_line
    simp [h, hi]
  · unfold process_line
    simp only [h, hne1, hne2, hi, if_false, Bool.true_or, if_true]
    unfold execute_command
    cases hf : w.fork_ok s.calls.length with
    | false => simp [hf]
    | true =>
      cases hw : w.wait_ok s.calls.length with
      | false => simp [hf, hw]
      | true => simp [hf, hw]

/-- Witness of C6 on the empty line in a non-interactive and in an interactive
shell. -/
theorem C6_empty_line_witness :
    process_line (sample_world false []) initial_state "\n".toList = Step.again initial_state ∧
    ∃ s1, process_line (sample_world true []) initial_state "\n".toList = Step.again s1 ∧
      s1.should_print_prompt = true :=
  ⟨(C6_empty_line (sample_world false []) initial_state "\n".toList (by decide)).1 (by decide),
   ((C6_empty_line (sample_world true []) initial_state "\n".toList (by decide)).2
      (by decide)).2 (by decide)⟩

/-- C10, the code at the failing inputs: a non-interactive shell hands the line
of one space to `execute_command`, an interactive shell hands it the empty
line; in both the argument vector has no token, so `args[0]` is the sentinel
and the child has no defined behaviour. -/
theorem C10_empty_argument_vector :
    (process_line (sample_world false []) initial_state " \n".toList =
        Step.again { should_print_prompt := false, out := [], err := [],
                     calls := [" ".toList] } ∧
     tokenize " ".toList = [] ∧
     child (sample_world false []) " ".toList = none) ∧
    (process_line (sample_world true []) initial_state "\n".toList =
        Step.again { should_print_prompt := true, out := "($)\n".toList ++ [NUL], err := [],
                     calls := [[]] } ∧
     tokenize [] = [] ∧
     child (sample_world true []) [] = none) := by
  decide

end Shell
